import Mathlib

/-!
Verification of the SplitJourney ledger & settlement engine (`core/logic.py`).

Shallow embedding conventions:
* Python `float` currency amounts are modelled as exact rationals `ℚ`
  (the spec itself mandates decimal arithmetic for tolerance checks).
* A Python `dict` is modelled as an association list in insertion order;
  `dict.get(k, d)` is `iget`, `k in dict` membership plus in-place update is
  `bupdate` (which is a no-op for absent keys, like the guarded updates in
  `calculate_member_balances`).
* Database rows are plain records; the SQLAlchemy session is a `DB` record of
  row lists, and `query(...).filter(...).first()/.all()` become `find?`/`filter`.
* Python's stable `list.sort` is modelled by the stable `List.insertionSort`.
* Fallible operations (`update_expense` on a missing expense, attribute access
  on a missing group) return `Option`, `none` marking the raised exception.
* Fields never read by the engine (descriptions, dates, names) are omitted.
-/

namespace SJ

/-- Rounding of a rational to the nearest integer, ties to even — the
behaviour of Python's builtin `round`. -/
def roundHalfEven (x : ℚ) : ℤ :=
  if x - ⌊x⌋ < 1/2 then ⌊x⌋
  else if 1/2 < x - ⌊x⌋ then ⌊x⌋ + 1
  else if ⌊x⌋ % 2 = 0 then ⌊x⌋ else ⌊x⌋ + 1

/-- Python's `round(x, 2)`: round to the nearest multiple of `1/100`. -/
def round2 (x : ℚ) : ℚ := (roundHalfEven (x * 100) : ℚ) / 100

/-- One row of the `expense_splits` table (`ExpenseSplit` model). -/
structure ExpenseSplit where
  expense_id : Int
  member_id : Int
  amount_owed : ℚ
deriving DecidableEq

/-- One row of the `expenses` table, with its `splits` relationship inlined. -/
structure Expense where
  id : Int
  group_id : Int
  payer_member_id : Int
  amount : ℚ
  splits : List ExpenseSplit
deriving DecidableEq

/-- One row of the `settlements` table. -/
structure Settlement where
  group_id : Int
  payer_member_id : Int
  receiver_member_id : Int
  amount : ℚ
deriving DecidableEq

/-- One row of the `groups` table; `members` is the list of ids of the
group's current `GroupMember` rows, `budget_amount` the nullable budget. -/
structure Group where
  id : Int
  members : List Int
  budget_amount : Option ℚ
deriving DecidableEq

/-- The persistent store visible to the engine. -/
structure DB where
  groups : List Group
  expenses : List Expense
  settlements : List Settlement
deriving DecidableEq

/-- Python `dict.get(k, d)` on an association list. -/
def iget (inputs : List (Int × ℚ)) (k : Int) (d : ℚ) : ℚ :=
  match inputs.find? (fun p => p.1 == k) with
  | some p => p.2
  | none => d

/-- Python `if k in balances: balances[k] += δ`: update the entry with key
`k` if present, otherwise leave the list unchanged. -/
def bupdate (b : List (Int × ℚ)) (k : Int) (δ : ℚ) : List (Int × ℚ) :=
  b.map (fun p => if p.1 = k then (p.1, p.2 + δ) else p)

/-- Python dict comprehension `{k: 0.0 for k in ks}`: keys in first-occurrence
order, deduplicated, all values zero. -/
def dictInit (ks : List Int) : List (Int × ℚ) :=
  ks.foldl (fun b k => if b.any (fun p => p.1 == k) then b else b ++ [(k, 0)]) []

/-- `logic.calculate_member_balances` (logic.py:149-185): net balance per
current member of the group; empty mapping when the group does not exist. -/
def calculate_member_balances (db : DB) (group_id : Int) : List (Int × ℚ) :=
  match db.groups.find? (fun g => g.id == group_id) with
  | none => []
  | some group =>
    let balances0 := dictInit group.members
    let expenses := db.expenses.filter (fun e => e.group_id == group_id)
    let b1 := expenses.foldl (fun b e => bupdate b e.payer_member_id e.amount) balances0
    let b2 := expenses.foldl
      (fun b e => e.splits.foldl (fun b s => bupdate b s.member_id (-s.amount_owed)) b) b1
    (db.settlements.filter (fun s => s.group_id == group_id)).foldl
      (fun b s => bupdate (bupdate b s.payer_member_id s.amount)
        s.receiver_member_id (-s.amount)) b2

/-- The split-allocation block shared verbatim by `create_expense`
(logic.py:79-142) and `update_expense` (logic.py:261-312).  For the `Equal`
policy the dict holds Python booleans; truthiness is modelled by `≠ 0`
(`True` = 1, `False` = 0).  An unknown policy string produces no splits. -/
def computeSplits (expense_id : Int) (amount : ℚ) (split_type : String)
    (members : List Int) (split_inputs : List (Int × ℚ)) : List ExpenseSplit :=
  if split_type == "Equal" then
    let selected :=
      if split_inputs.isEmpty then members
      else members.filter (fun m => !(iget split_inputs m 0 == 0))
    if selected.length > 0 then
      selected.map (fun m => ⟨expense_id, m, amount / selected.length⟩)
    else []
  else if split_type == "Unequal" then
    members.map (fun m => ⟨expense_id, m, iget split_inputs m 0⟩)
  else if split_type == "Percentage" then
    members.map (fun m => ⟨expense_id, m, iget split_inputs m 0 / 100 * amount⟩)
  else if split_type == "Shares" then
    let total_shares := (split_inputs.map Prod.snd).sum
    if total_shares > 0 then
      members.map (fun m => ⟨expense_id, m, iget split_inputs m 0 * (amount / total_shares)⟩)
    else []
  else []

/-- `logic.create_expense` (logic.py:52-147).  The fresh primary key the
session would assign at `flush()` is passed in as `new_expense_id`; `none`
models the `AttributeError` raised when the group does not exist. -/
def create_expense (db : DB) (group_id payer_member_id : Int) (amount : ℚ)
    (split_type : String) (split_inputs : List (Int × ℚ)) (new_expense_id : Int) :
    Option (DB × Expense) :=
  match db.groups.find? (fun g => g.id == group_id) with
  | none => none
  | some group =>
    let splits := computeSplits new_expense_id amount split_type group.members split_inputs
    let expense : Expense :=
      ⟨new_expense_id, group_id, payer_member_id, amount, splits⟩
    some ({ db with expenses := db.expenses ++ [expense] }, expense)

/-- `logic.update_expense` (logic.py:233-317): replace-all split recompute.
`none` models the `ValueError` for a missing expense or the attribute error
for a missing group. -/
def update_expense (db : DB) (expense_id : Int) (amount : ℚ)
    (payer_member_id : Int) (split_type : String)
    (split_inputs : List (Int × ℚ)) : Option (DB × Expense) :=
  match db.expenses.find? (fun e => e.id == expense_id) with
  | none => none
  | some expense =>
    match db.groups.find? (fun g => g.id == expense.group_id) with
    | none => none
    | some group =>
      let splits := computeSplits expense_id amount split_type group.members split_inputs
      let expense' : Expense :=
        { expense with amount := amount, payer_member_id := payer_member_id, splits := splits }
      some ({ db with
        expenses := db.expenses.map (fun e => if e.id == expense_id then expense' else e) },
        expense')

/-- Debtor extraction pass of `simplify_debts` (logic.py:195-199): members
whose balance rounded to cents is below `-0.01`, carrying the rounded value,
in balance-iteration order. -/
def debtorsOf : List (Int × ℚ) → List (Int × ℚ)
  | [] => []
  | p :: t =>
    if round2 p.2 < -(1/100) then (p.1, round2 p.2) :: debtorsOf t else debtorsOf t

/-- Creditor extraction pass of `simplify_debts` (logic.py:195-201): members
whose balance rounded to cents is above `0.01`, carrying the rounded value,
in balance-iteration order. -/
def creditorsOf : List (Int × ℚ) → List (Int × ℚ)
  | [] => []
  | p :: t =>
    if (1/100 : ℚ) < round2 p.2 then (p.1, round2 p.2) :: creditorsOf t else creditorsOf t

/-- The two-cursor greedy loop of `simplify_debts` (logic.py:209-231).
The Python `while` walks index cursors, never revisiting a settled entry, so
it is equivalently a recursion on the two suffixes; `fuel` bounds the
iteration count (each genuine iteration zeroes the `min` side, so
`debtors.length + creditors.length` fuel is never exhausted). -/
def settleLoop : Nat → List (Int × ℚ) → List (Int × ℚ) → List (Int × Int × ℚ)
  | 0, _, _ => []
  | _ + 1, [], _ => []
  | _ + 1, _, [] => []
  | fuel + 1, (did, da) :: ds, (cid, ca) :: cs =>
    let amount := min |da| ca
    let da' := da + amount
    let ca' := ca - amount
    (did, cid, amount) ::
      (if |da'| < 1/100 then
        if ca' < 1/100 then settleLoop fuel ds cs
        else settleLoop fuel ds ((cid, ca') :: cs)
      else
        if ca' < 1/100 then settleLoop fuel ((did, da') :: ds) cs
        else settleLoop fuel ((did, da') :: ds) ((cid, ca') :: cs))

/-- `logic.simplify_debts` (logic.py:187-231): greedy debt simplification.
Debtors are sorted ascending and creditors descending by amount with Python's
stable sort, then matched pairwise. -/
def simplify_debts (balances : List (Int × ℚ)) : List (Int × Int × ℚ) :=
  let debtors := List.insertionSort (fun a b : Int × ℚ => a.2 ≤ b.2) (debtorsOf balances)
  let creditors := List.insertionSort (fun a b : Int × ℚ => b.2 ≤ a.2) (creditorsOf balances)
  settleLoop (debtors.length + creditors.length) debtors creditors

/-- Application of one emitted transaction `(payer, receiver, amount)` as a
settlement: the payer's balance increases and the receiver's decreases, the
sign convention of the settlement pass of `calculate_member_balances`. -/
def applySettlement (b : List (Int × ℚ)) (t : Int × Int × ℚ) : List (Int × ℚ) :=
  bupdate (bupdate b t.1 t.2.2) t.2.1 (-t.2.2)

/-- Application of a whole transaction list to a balances mapping. -/
def applyTransactions (b : List (Int × ℚ)) (ts : List (Int × Int × ℚ)) :
    List (Int × ℚ) :=
  ts.foldl applySettlement b

/-- `logic.calculate_total_spent` (logic.py:608-623). -/
def calculate_total_spent (db : DB) (group_id : Int) : ℚ :=
  ((db.expenses.filter (fun e => e.group_id == group_id)).map (fun e => e.amount)).sum

/-- The three alert messages of `get_budget_status`; `exceeded` carries the
overage percentage the source interpolates into the message. -/
inductive BudgetAlert where
  | exceeded (overage : ℚ)
  | nearingLimit
  | halfUsed
deriving DecidableEq

/-- Result record of `get_budget_status`. -/
structure BudgetStatus where
  total_spent : ℚ
  budget_amount : Option ℚ
  percentage_used : ℚ
  alerts : List BudgetAlert
deriving DecidableEq

/-- `logic.get_budget_status` (logic.py:625-674).  `if budget_amount and
budget_amount > 0` is falsy for `None` and for any value `≤ 0`. -/
def get_budget_status (db : DB) (group_id : Int) : BudgetStatus :=
  match db.groups.find? (fun g => g.id == group_id) with
  | none => ⟨0, none, 0, []⟩
  | some group =>
    let total_spent := calculate_total_spent db group_id
    match group.budget_amount with
    | none => ⟨total_spent, none, 0, []⟩
    | some b =>
      if b > 0 then
        let percentage_used := total_spent / b * 100
        let alerts : List BudgetAlert :=
          if percentage_used ≥ 100 then [.exceeded (percentage_used - 100)]
          else if percentage_used ≥ 80 then [.nearingLimit]
          else if percentage_used ≥ 50 then [.halfUsed]
          else []
        ⟨total_spent, some b, percentage_used, alerts⟩
      else ⟨total_spent, some b, 0, []⟩

/-- A rational that is a whole number of cents (an exact multiple of 0.01),
the grid on which `simplify_debts` operates after rounding. -/
def Cent (x : ℚ) : Prop := ∃ k : ℤ, x = (k : ℚ) / 100

lemma cent_of_round2_fix {x : ℚ} (h : round2 x = x) : Cent x :=
  ⟨roundHalfEven (x * 100), h.symm⟩

lemma Cent.add {x y : ℚ} (hx : Cent x) (hy : Cent y) : Cent (x + y) := by
  obtain ⟨k, rfl⟩ := hx
  obtain ⟨j, rfl⟩ := hy
  exact ⟨k + j, by push_cast; ring⟩

lemma Cent.neg {x : ℚ} (hx : Cent x) : Cent (-x) := by
  obtain ⟨k, rfl⟩ := hx
  exact ⟨-k, by push_cast; ring⟩

lemma Cent.sub {x y : ℚ} (hx : Cent x) (hy : Cent y) : Cent (x - y) := by
  simpa [sub_eq_add_neg] using hx.add hy.neg

lemma Cent.abs {x : ℚ} (hx : Cent x) : Cent |x| := by
  rcases abs_choice x with h | h
  · rwa [h]
  · rw [h]; exact hx.neg

lemma Cent.min {x y : ℚ} (hx : Cent x) (hy : Cent y) : Cent (min x y) := by
  rcases min_choice x y with h | h <;> rw [h]
  · exact hx
  · exact hy

lemma Cent.eq_zero_of_abs_lt {x : ℚ} (hx : Cent x) (h : |x| < 1/100) : x = 0 := by
  obtain ⟨k, rfl⟩ := hx
  have h1 : |(k : ℚ)| < 1 := by
    rw [abs_div, abs_of_pos (by norm_num : (0:ℚ) < 100)] at h
    rw [div_lt_div_iff₀ (by norm_num) (by norm_num)] at h
    simpa using h
  have h2 : (k : ℚ) < 1 := (abs_lt.mp h1).2
  have h3 : (-1 : ℚ) < k := (abs_lt.mp h1).1
  have h4 : k < 1 := by exact_mod_cast h2
  have h5 : -1 < k := by exact_mod_cast h3
  have : k = 0 := by omega
  simp [this]

lemma qsum_nonneg {l : List ℚ} (h : ∀ x ∈ l, 0 ≤ x) : 0 ≤ l.sum := by
  induction l with
  | nil => simp
  | cons a t ih =>
    have ha := h a (by simp)
    have ht := ih (fun x hx => h x (by simp [hx]))
    simp only [List.sum_cons]
    linarith

lemma pos_entries_sum_zero {l : List (Int × ℚ)} (hpos : ∀ p ∈ l, 0 < p.2)
    (hsum : (l.map Prod.snd).sum = 0) : l = [] := by
  cases l with
  | nil => rfl
  | cons a t =>
    exfalso
    have ha := hpos a (by simp)
    have ht : 0 ≤ (t.map Prod.snd).sum :=
      qsum_nonneg (by
        intro x hx
        obtain ⟨p, hp, rfl⟩ := List.mem_map.mp hx
        exact le_of_lt (hpos p (by simp [hp])))
    simp only [List.map_cons, List.sum_cons] at hsum
    linarith

lemma qsum_nonpos {l : List ℚ} (h : ∀ x ∈ l, x ≤ 0) : l.sum ≤ 0 := by
  induction l with
  | nil => simp
  | cons a t ih =>
    have ha := h a (by simp)
    have ht := ih (fun x hx => h x (by simp [hx]))
    simp only [List.sum_cons]
    linarith

lemma neg_entries_sum_zero {l : List (Int × ℚ)} (hneg : ∀ p ∈ l, p.2 < 0)
    (hsum : (l.map Prod.snd).sum = 0) : l = [] := by
  cases l with
  | nil => rfl
  | cons a t =>
    exfalso
    have ha := hneg a (by simp)
    have ht : (t.map Prod.snd).sum ≤ 0 :=
      qsum_nonpos (by
        intro x hx
        obtain ⟨p, hp, rfl⟩ := List.mem_map.mp hx
        exact le_of_lt (hneg p (by simp [hp])))
    simp only [List.map_cons, List.sum_cons] at hsum
    linarith

/-- Total amount paid (as transaction payer) by a given member over a
transaction list. -/
def paidBy (ts : List (Int × Int × ℚ)) (id : Int) : ℚ :=
  ((ts.filter (fun t => t.1 == id)).map (fun t => t.2.2)).sum

/-- Total amount received (as transaction receiver) by a given member over a
transaction list. -/
def recvBy (ts : List (Int × Int × ℚ)) (id : Int) : ℚ :=
  ((ts.filter (fun t => t.2.1 == id)).map (fun t => t.2.2)).sum

/-- Total balance carried by a given member id in an association list. -/
def asum (l : List (Int × ℚ)) (id : Int) : ℚ :=
  ((l.filter (fun p => p.1 == id)).map Prod.snd).sum

lemma paidBy_nil (id : Int) : paidBy [] id = 0 := rfl

lemma recvBy_nil (id : Int) : recvBy [] id = 0 := rfl

lemma asum_nil (id : Int) : asum [] id = 0 := rfl

lemma paidBy_cons (t : Int × Int × ℚ) (ts : List (Int × Int × ℚ)) (id : Int) :
    paidBy (t :: ts) id = (if t.1 = id then t.2.2 else 0) + paidBy ts id := by
  by_cases h : t.1 = id <;> simp [paidBy, List.filter_cons, h]

lemma recvBy_cons (t : Int × Int × ℚ) (ts : List (Int × Int × ℚ)) (id : Int) :
    recvBy (t :: ts) id = (if t.2.1 = id then t.2.2 else 0) + recvBy ts id := by
  by_cases h : t.2.1 = id <;> simp [recvBy, List.filter_cons, h]

lemma asum_cons (p : Int × ℚ) (l : List (Int × ℚ)) (id : Int) :
    asum (p :: l) id = (if p.1 = id then p.2 else 0) + asum l id := by
  by_cases h : p.1 = id <;> simp [asum, List.filter_cons, h]

lemma asum_eq_zero_of_not_mem {l : List (Int × ℚ)} {id : Int}
    (h : id ∉ l.map Prod.fst) : asum l id = 0 := by
  induction l with
  | nil => rfl
  | cons p t ih =>
    simp only [List.map_cons, List.mem_cons, not_or] at h
    rw [asum_cons, if_neg (fun hp => h.1 hp.symm), ih h.2, add_zero]

lemma asum_perm {l₁ l₂ : List (Int × ℚ)} (h : l₁.Perm l₂) (id : Int) :
    asum l₁ id = asum l₂ id :=
  ((h.filter _).map Prod.snd).sum_eq

lemma bupdate_value (b : List (Int × ℚ)) (k : Int) (δ : ℚ) :
    bupdate b k δ = b.map (fun p => (p.1, p.2 + if p.1 = k then δ else 0)) := by
  unfold bupdate
  apply List.map_congr_left
  intro p _
  by_cases h : p.1 = k <;> simp [h]

lemma applySettlement_value (b : List (Int × ℚ)) (t : Int × Int × ℚ) :
    applySettlement b t = b.map (fun p =>
      (p.1, p.2 + (if t.1 = p.1 then t.2.2 else 0) - (if t.2.1 = p.1 then t.2.2 else 0))) := by
  unfold applySettlement
  rw [bupdate_value, bupdate_value, List.map_map]
  apply List.map_congr_left
  rintro ⟨pid, pv⟩ _
  simp only [Function.comp, Prod.mk.injEq, true_and]
  split_ifs <;> first | (exfalso; omega) | ring

lemma applyTransactions_value (ts : List (Int × Int × ℚ)) (b : List (Int × ℚ)) :
    applyTransactions b ts
      = b.map (fun p => (p.1, p.2 + paidBy ts p.1 - recvBy ts p.1)) := by
  induction ts generalizing b with
  | nil =>
    simp [applyTransactions, paidBy_nil, recvBy_nil]
  | cons t rest ih =>
    have step : applyTransactions b (t :: rest)
        = applyTransactions (applySettlement b t) rest := rfl
    rw [step, ih, applySettlement_value, List.map_map]
    apply List.map_congr_left
    intro p _
    simp only [Function.comp, paidBy_cons, recvBy_cons]
    ring


lemma settleLoop_zero (D C : List (Int × ℚ)) : settleLoop 0 D C = [] := rfl

lemma settleLoop_nilD (fuel : Nat) (C : List (Int × ℚ)) :
    settleLoop (fuel + 1) [] C = [] := by cases C <;> rfl

lemma settleLoop_nilC (fuel : Nat) (d : Int × ℚ) (ds : List (Int × ℚ)) :
    settleLoop (fuel + 1) (d :: ds) [] = [] := rfl

lemma settleLoop_cons (fuel : Nat) (did cid : Int) (da ca : ℚ)
    (ds cs : List (Int × ℚ)) :
    settleLoop (fuel + 1) ((did, da) :: ds) ((cid, ca) :: cs)
      = (did, cid, min |da| ca) ::
        (if |da + min |da| ca| < 1/100 then
          if ca - min |da| ca < 1/100 then settleLoop fuel ds cs
          else settleLoop fuel ds ((cid, ca - min |da| ca) :: cs)
        else
          if ca - min |da| ca < 1/100 then settleLoop fuel ((did, da + min |da| ca) :: ds) cs
          else settleLoop fuel ((did, da + min |da| ca) :: ds) ((cid, ca - min |da| ca) :: cs)) := by
  simp only [settleLoop]

lemma settleLoop_length : ∀ (fuel : Nat) (D C : List (Int × ℚ)),
    (∀ p ∈ D, p.2 ≤ 0) →
    (settleLoop fuel D C).length ≤ D.length + C.length - 1 := by
  intro fuel
  induction fuel with
  | zero =>
    intro D C _
    simp [settleLoop_zero]
  | succ fuel ih =>
    intro D C hD
    cases D with
    | nil => simp [settleLoop_nilD]
    | cons d ds =>
      cases C with
      | nil => simp [settleLoop_nilC]
      | cons c cs =>
        obtain ⟨did, da⟩ := d
        obtain ⟨cid, ca⟩ := c
        have hda : da ≤ 0 := hD (did, da) (by simp)
        have habs : |da| = -da := abs_of_nonpos hda
        rw [settleLoop_cons]
        by_cases hd1 : |da + min |da| ca| < 1/100 <;>
          by_cases hc1 : ca - min |da| ca < 1/100
        · rw [if_pos hd1, if_pos hc1]
          have := ih ds cs (fun p hp => hD p (by simp [hp]))
          simp only [List.length_cons]
          omega
        · rw [if_pos hd1, if_neg hc1]
          have := ih ds ((cid, ca - min |da| ca) :: cs) (fun p hp => hD p (by simp [hp]))
          simp only [List.length_cons] at this ⊢
          omega
        · rw [if_neg hd1, if_pos hc1]
          have := ih ((did, da + min |da| ca) :: ds) cs (by
            intro p hp
            rcases List.mem_cons.mp hp with h | h
            · subst h
              have : min |da| ca ≤ |da| := min_le_left _ _
              simp only
              linarith [habs]
            · exact hD p (by simp [h]))
          simp only [List.length_cons] at this ⊢
          omega
        · exfalso
          rcases min_choice |da| ca with h | h
          · apply hd1
            rw [h, habs]
            norm_num
          · apply hc1
            rw [h]
            norm_num
lemma settleLoop_spec : ∀ (fuel : Nat) (D C : List (Int × ℚ)),
    D.length + C.length ≤ fuel →
    (∀ p ∈ D, p.2 < 0 ∧ Cent p.2) →
    (∀ p ∈ C, 0 < p.2 ∧ Cent p.2) →
    (D.map Prod.fst).Nodup →
    (C.map Prod.fst).Nodup →
    (∀ i, i ∈ D.map Prod.fst → i ∉ C.map Prod.fst) →
    (D.map Prod.snd).sum + (C.map Prod.snd).sum = 0 →
    ∀ id, paidBy (settleLoop fuel D C) id = -(asum D id) ∧
          recvBy (settleLoop fuel D C) id = asum C id := by
  intro fuel
  induction fuel with
  | zero =>
    intro D C hlen hD hC _ _ _ hsum id
    have hD0 : D = [] := List.length_eq_zero.mp (by omega)
    have hC0 : C = [] := List.length_eq_zero.mp (by omega)
    subst hD0
    subst hC0
    simp [settleLoop_zero, paidBy_nil, recvBy_nil, asum_nil]
  | succ fuel ih =>
    intro D C hlen hD hC hnD hnC hdisj hsum id
    cases D with
    | nil =>
      have hC0 : C = [] :=
        pos_entries_sum_zero (fun p hp => (hC p hp).1) (by simpa using hsum)
      subst hC0
      simp [settleLoop_nilD, paidBy_nil, recvBy_nil, asum_nil]
    | cons d ds =>
      cases C with
      | nil =>
        exfalso
        have : d :: ds = [] :=
          neg_entries_sum_zero (fun p hp => (hD p hp).1) (by simpa using hsum)
        simp at this
      | cons c cs =>
        obtain ⟨did, da⟩ := d
        obtain ⟨cid, ca⟩ := c
        obtain ⟨hda, hdaC⟩ := hD (did, da) (by simp)
        obtain ⟨hca, hcaC⟩ := hC (cid, ca) (by simp)
        have habs : |da| = -da := abs_of_neg hda
        have hamC : Cent (min |da| ca) := (hdaC.abs).min hcaC
        have ham_pos : 0 < min |da| ca := lt_min (abs_pos.mpr (ne_of_lt hda)) hca
        have ham_le_d : min |da| ca ≤ -da := by rw [← habs]; exact min_le_left _ _
        have ham_le_c : min |da| ca ≤ ca := min_le_right _ _
        have hda2 : da + min |da| ca ≤ 0 := by linarith
        have hca2 : 0 ≤ ca - min |da| ca := by linarith
        have hdaC2 : Cent (da + min |da| ca) := hdaC.add hamC
        have hcaC2 : Cent (ca - min |da| ca) := hcaC.sub hamC
        have hnD2 : (did :: ds.map Prod.fst).Nodup := by simpa using hnD
        have hnC2 : (cid :: cs.map Prod.fst).Nodup := by simpa using hnC
        have hdid_not_ds : did ∉ ds.map Prod.fst := (List.nodup_cons.mp hnD2).1
        have hnDtail : (ds.map Prod.fst).Nodup := (List.nodup_cons.mp hnD2).2
        have hcid_not_cs : cid ∉ cs.map Prod.fst := (List.nodup_cons.mp hnC2).1
        have hnCtail : (cs.map Prod.fst).Nodup := (List.nodup_cons.mp hnC2).2
        have hdid_not_C : did ∉ (((cid, ca) :: cs).map Prod.fst) := hdisj did (by simp)
        have hdid_ne_cid : did ≠ cid := by
          intro h
          exact hdid_not_C (by simp [h])
        have hdid_not_cs : did ∉ cs.map Prod.fst := by
          intro h
          exact hdid_not_C (by simp [h])
        have hcid_not_D : cid ∉ ds.map Prod.fst := by
          intro h
          exact hdisj cid (by simp [h]) (by simp)
        have hsum2 : da + (ds.map Prod.snd).sum + (ca + (cs.map Prod.snd).sum) = 0 := by
          simpa using hsum
        rw [settleLoop_cons]
        by_cases hd1 : |da + min |da| ca| < 1/100 <;>
          by_cases hc1 : ca - min |da| ca < 1/100
        · -- both settled
          rw [if_pos hd1, if_pos hc1]
          have hdz : da + min |da| ca = 0 := hdaC2.eq_zero_of_abs_lt hd1
          have hcz : ca - min |da| ca = 0 :=
            hcaC2.eq_zero_of_abs_lt (by rwa [abs_of_nonneg hca2])
          have hrec := ih ds cs (by simp at hlen ⊢; omega)
            (fun p hp => hD p (by simp [hp]))
            (fun p hp => hC p (by simp [hp]))
            (by simpa using hnDtail)
            (by simpa using hnCtail)
            (fun i hi hic => hdisj i (by simp [hi]) (by simp [hic]))
            (by linarith)
          obtain ⟨hp, hr⟩ := hrec id
          rw [paidBy_cons, recvBy_cons, asum_cons, asum_cons, hp, hr]
          constructor
          · by_cases h : did = id <;> simp [h] <;> linarith
          · by_cases h : cid = id <;> simp [h] <;> linarith
        · -- debtor settled, creditor keeps remainder
          rw [if_pos hd1, if_neg hc1]
          have hdz : da + min |da| ca = 0 := hdaC2.eq_zero_of_abs_lt hd1
          have hca2p : 0 < ca - min |da| ca := by
            rcases lt_or_eq_of_le hca2 with h | h
            · exact h
            · exfalso; apply hc1; rw [← h]; norm_num
          have hrec := ih ds ((cid, ca - min |da| ca) :: cs) (by simp at hlen ⊢; omega)
            (fun p hp => hD p (by simp [hp]))
            (by
              intro p hp
              rcases List.mem_cons.mp hp with h | h
              · subst h
                exact ⟨hca2p, hcaC2⟩
              · exact hC p (by simp [h]))
            (by simpa using hnDtail)
            (by simpa using hnC)
            (by
              intro i hi
              exact fun hic => hdisj i (by simp [hi]) (by simpa using hic))
            (by simp; linarith)
          obtain ⟨hp, hr⟩ := hrec id
          rw [paidBy_cons, recvBy_cons, asum_cons, asum_cons, hp, hr, asum_cons]
          constructor
          · by_cases h : did = id <;> simp [h] <;> linarith
          · by_cases h : cid = id <;> simp [h] <;> linarith
        · -- creditor settled, debtor keeps remainder
          rw [if_neg hd1, if_pos hc1]
          have hcz : ca - min |da| ca = 0 :=
            hcaC2.eq_zero_of_abs_lt (by rwa [abs_of_nonneg hca2])
          have hda2p : da + min |da| ca < 0 := by
            rcases lt_or_eq_of_le hda2 with h | h
            · exact h
            · exfalso; apply hd1; rw [h]; norm_num
          have hrec := ih ((did, da + min |da| ca) :: ds) cs (by simp at hlen ⊢; omega)
            (by
              intro p hp
              rcases List.mem_cons.mp hp with h | h
              · subst h
                exact ⟨hda2p, hdaC2⟩
              · exact hD p (by simp [h]))
            (fun p hp => hC p (by simp [hp]))
            (by simpa using hnD)
            (by simpa using hnCtail)
            (by
              intro i hi hic
              exact hdisj i (by simpa using hi) (by simp [hic]))
            (by simp; linarith)
          obtain ⟨hp, hr⟩ := hrec id
          rw [paidBy_cons, recvBy_cons, asum_cons, asum_cons, hp, hr, asum_cons]
          constructor
          · by_cases h : did = id <;> simp [h] <;> linarith
          · by_cases h : cid = id <;> simp [h] <;> linarith
        · -- neither advances: impossible
          exfalso
          rcases min_choice |da| ca with h | h
          · apply hd1
            rw [h, habs]
            norm_num
          · apply hc1
            rw [h]
            norm_num

lemma mem_debtorsOf {b : List (Int × ℚ)} {q : Int × ℚ} (h : q ∈ debtorsOf b) :
    q.2 < -(1/100) := by
  induction b with
  | nil => simp [debtorsOf] at h
  | cons p t ih =>
    simp only [debtorsOf] at h
    by_cases hc : round2 p.2 < -(1/100)
    · rw [if_pos hc] at h
      rcases List.mem_cons.mp h with h1 | h1
      · rw [h1]
        simpa using hc
      · exact ih h1
    · rw [if_neg hc] at h
      exact ih h

lemma mem_creditorsOf {b : List (Int × ℚ)} {q : Int × ℚ} (h : q ∈ creditorsOf b) :
    (1/100 : ℚ) < q.2 := by
  induction b with
  | nil => simp [creditorsOf] at h
  | cons p t ih =>
    simp only [creditorsOf] at h
    by_cases hc : (1/100 : ℚ) < round2 p.2
    · rw [if_pos hc] at h
      rcases List.mem_cons.mp h with h1 | h1
      · rw [h1]
        simpa using hc
      · exact ih h1
    · rw [if_neg hc] at h
      exact ih h

lemma debtorsOf_of_fix {b : List (Int × ℚ)} (hr : ∀ p ∈ b, round2 p.2 = p.2) :
    debtorsOf b = b.filter (fun p => decide (p.2 < -(1/100))) := by
  induction b with
  | nil => rfl
  | cons p t ih =>
    have hp := hr p (by simp)
    have iht := ih (fun q hq => hr q (by simp [hq]))
    simp only [debtorsOf]
    rw [hp, List.filter_cons]
    by_cases h : p.2 < -(1/100)
    · rw [if_pos h, if_pos (decide_eq_true h), iht]
    · rw [if_neg h, if_neg (by simpa using h), iht]

lemma creditorsOf_of_fix {b : List (Int × ℚ)} (hr : ∀ p ∈ b, round2 p.2 = p.2) :
    creditorsOf b = b.filter (fun p => decide ((1/100 : ℚ) < p.2)) := by
  induction b with
  | nil => rfl
  | cons p t ih =>
    have hp := hr p (by simp)
    have iht := ih (fun q hq => hr q (by simp [hq]))
    simp only [creditorsOf]
    rw [hp, List.filter_cons]
    by_cases h : (1/100 : ℚ) < p.2
    · rw [if_pos h, if_pos (decide_eq_true h), iht]
    · rw [if_neg h, if_neg (by simpa using h), iht]

lemma debtor_creditor_sum {b : List (Int × ℚ)}
    (hr : ∀ p ∈ b, round2 p.2 = p.2)
    (hne : ∀ p ∈ b, p.2 ≠ 1/100 ∧ p.2 ≠ -(1/100)) :
    ((debtorsOf b).map Prod.snd).sum + ((creditorsOf b).map Prod.snd).sum
      = (b.map Prod.snd).sum := by
  induction b with
  | nil => simp [debtorsOf, creditorsOf]
  | cons p t ih =>
    have hp := hr p (by simp)
    have hpe := hne p (by simp)
    have hcent : Cent p.2 := cent_of_round2_fix hp
    have iht := ih (fun q hq => hr q (by simp [hq])) (fun q hq => hne q (by simp [hq]))
    simp only [debtorsOf, creditorsOf]
    rw [hp]
    by_cases hlt : p.2 < -(1/100)
    · have hgt : ¬ ((1/100 : ℚ) < p.2) := by linarith
      rw [if_pos hlt, if_neg hgt]
      simp only [List.map_cons, List.sum_cons]
      linarith
    · by_cases hgt : (1/100 : ℚ) < p.2
      · rw [if_neg hlt, if_pos hgt]
        simp only [List.map_cons, List.sum_cons]
        linarith
      · have hz : p.2 = 0 := hcent.eq_zero_of_abs_lt (by
          rw [abs_lt]
          constructor
          · rcases lt_or_eq_of_le (le_of_not_lt hlt) with h | h
            · linarith
            · exact absurd h.symm hpe.2
          · rcases lt_or_eq_of_le (le_of_not_lt hgt) with h | h
            · linarith
            · exact absurd h hpe.1)
        rw [if_neg hlt, if_neg hgt]
        simp only [List.map_cons, List.sum_cons]
        linarith

lemma asum_filter (f : Int × ℚ → Bool) {b : List (Int × ℚ)}
    (hn : (b.map Prod.fst).Nodup) {p : Int × ℚ} (hp : p ∈ b) :
    asum (b.filter f) p.1 = if f p then p.2 else 0 := by
  induction b with
  | nil => simp at hp
  | cons q t ih =>
    have hn2 : (q.1 :: t.map Prod.fst).Nodup := by simpa using hn
    have hq1 : q.1 ∉ t.map Prod.fst := (List.nodup_cons.mp hn2).1
    have hnt : (t.map Prod.fst).Nodup := (List.nodup_cons.mp hn2).2
    rcases List.mem_cons.mp hp with h | h
    · subst h
      have hnot : p.1 ∉ (t.filter f).map Prod.fst := by
        intro hmem
        obtain ⟨r, hr, hre⟩ := List.mem_map.mp hmem
        exact hq1 (List.mem_map.mpr ⟨r, (List.mem_filter.mp hr).1, hre⟩)
      rw [List.filter_cons]
      by_cases hf : f p
      · rw [if_pos hf, asum_cons, if_pos rfl, if_pos hf,
          asum_eq_zero_of_not_mem hnot, add_zero]
      · rw [if_neg hf, if_neg hf]
        exact asum_eq_zero_of_not_mem hnot
    · have hne : q.1 ≠ p.1 := by
        intro he
        exact hq1 (he ▸ List.mem_map.mpr ⟨p, h, rfl⟩)
      rw [List.filter_cons]
      by_cases hf : f q
      · rw [if_pos hf, asum_cons, if_neg hne, zero_add]
        exact ih (by simpa using hnt) h
      · rw [if_neg hf]
        exact ih (by simpa using hnt) h

lemma filter_fst_nodup {b : List (Int × ℚ)} (hn : (b.map Prod.fst).Nodup)
    (f : Int × ℚ → Bool) : ((b.filter f).map Prod.fst).Nodup :=
  hn.sublist ((List.filter_sublist b).map Prod.fst)

lemma keys_inj {b : List (Int × ℚ)} (hn : (b.map Prod.fst).Nodup)
    {p q : Int × ℚ} (hp : p ∈ b) (hq : q ∈ b) (h : p.1 = q.1) : p = q :=
  List.inj_on_of_nodup_map hn hp hq h

/-- Claim C1 (amended): for every balances mapping with distinct member ids
whose balances are exact multiples of 0.01 (fixed by rounding), none exactly
`±0.01`, and which sum to exactly zero, applying every transaction emitted by
`simplify_debts` as a settlement yields a mapping in which every member's
balance is zero within 0.01. -/
theorem simplify_debts_settlement_correct (b : List (Int × ℚ))
    (hnodup : (b.map Prod.fst).Nodup)
    (hfix : ∀ p ∈ b, round2 p.2 = p.2)
    (hedge : ∀ p ∈ b, p.2 ≠ 1/100 ∧ p.2 ≠ -(1/100))
    (hsum : (b.map Prod.snd).sum = 0) :
    ∀ q ∈ applyTransactions b (simplify_debts b), |q.2| ≤ 1/100 := by
  have hD0 : debtorsOf b = b.filter (fun p => decide (p.2 < -(1/100))) :=
    debtorsOf_of_fix hfix
  have hC0 : creditorsOf b = b.filter (fun p => decide ((1/100 : ℚ) < p.2)) :=
    creditorsOf_of_fix hfix
  have hpermD := List.perm_insertionSort (fun a b : Int × ℚ => a.2 ≤ b.2) (debtorsOf b)
  have hpermC := List.perm_insertionSort (fun a b : Int × ℚ => b.2 ≤ a.2) (creditorsOf b)
  have hts : simplify_debts b
      = settleLoop
          ((List.insertionSort (fun a b : Int × ℚ => a.2 ≤ b.2) (debtorsOf b)).length
            + (List.insertionSort (fun a b : Int × ℚ => b.2 ≤ a.2) (creditorsOf b)).length)
          (List.insertionSort (fun a b : Int × ℚ => a.2 ≤ b.2) (debtorsOf b))
          (List.insertionSort (fun a b : Int × ℚ => b.2 ≤ a.2) (creditorsOf b)) := rfl
  have hDn : ((debtorsOf b).map Prod.fst).Nodup := hD0 ▸ filter_fst_nodup hnodup _
  have hCn : ((creditorsOf b).map Prod.fst).Nodup := hC0 ▸ filter_fst_nodup hnodup _
  have hdisj : ∀ i, i ∈ (debtorsOf b).map Prod.fst → i ∉ (creditorsOf b).map Prod.fst := by
    intro i hiD hiC
    obtain ⟨p, hpD, hpi⟩ := List.mem_map.mp hiD
    obtain ⟨q, hqC, hqi⟩ := List.mem_map.mp hiC
    have hpb : p ∈ b := by
      have := hD0 ▸ hpD
      exact (List.mem_filter.mp this).1
    have hqb : q ∈ b := by
      have := hC0 ▸ hqC
      exact (List.mem_filter.mp this).1
    have hpq : p = q := keys_inj hnodup hpb hqb (by rw [hpi, hqi])
    have h1 := mem_debtorsOf hpD
    have h2 := mem_creditorsOf hqC
    rw [hpq] at h1
    linarith
  have hspec := settleLoop_spec
    ((List.insertionSort (fun a b : Int × ℚ => a.2 ≤ b.2) (debtorsOf b)).length
      + (List.insertionSort (fun a b : Int × ℚ => b.2 ≤ a.2) (creditorsOf b)).length)
    (List.insertionSort (fun a b : Int × ℚ => a.2 ≤ b.2) (debtorsOf b))
    (List.insertionSort (fun a b : Int × ℚ => b.2 ≤ a.2) (creditorsOf b))
    (le_refl _)
    (by
      intro p hp
      have hmem : p ∈ debtorsOf b := hpermD.mem_iff.mp hp
      have h1 := mem_debtorsOf hmem
      refine ⟨by linarith, ?_⟩
      have hpb := hD0 ▸ hmem
      have := (List.mem_filter.mp hpb).1
      exact cent_of_round2_fix (hfix p this)
      )
    (by
      intro p hp
      have hmem : p ∈ creditorsOf b := hpermC.mem_iff.mp hp
      have h1 := mem_creditorsOf hmem
      refine ⟨by linarith, ?_⟩
      have hpb := hC0 ▸ hmem
      have := (List.mem_filter.mp hpb).1
      exact cent_of_round2_fix (hfix p this)
      )
    ((hpermD.map Prod.fst).nodup_iff.mpr hDn)
    ((hpermC.map Prod.fst).nodup_iff.mpr hCn)
    (by
      intro i hi
      have hi2 : i ∈ (debtorsOf b).map Prod.fst := (hpermD.map Prod.fst).mem_iff.mp hi
      intro hic
      exact hdisj i hi2 ((hpermC.map Prod.fst).mem_iff.mp hic))
    (by
      rw [((hpermD.map Prod.snd).sum_eq : _), ((hpermC.map Prod.snd).sum_eq : _)]
      rw [debtor_creditor_sum hfix hedge]
      exact hsum)
  intro q hq
  rw [applyTransactions_value] at hq
  obtain ⟨p, hp, rfl⟩ := List.mem_map.mp hq
  obtain ⟨hps, hrs⟩ := hspec p.1
  rw [hts]
  have hasD : asum (debtorsOf b) p.1 = if decide (p.2 < -(1/100)) = true then p.2 else 0 := by
    rw [hD0]
    exact asum_filter _ hnodup hp
  have hasC : asum (creditorsOf b) p.1
      = if decide ((1/100 : ℚ) < p.2) = true then p.2 else 0 := by
    rw [hC0]
    exact asum_filter _ hnodup hp
  rw [asum_perm hpermD, hasD] at hps
  rw [asum_perm hpermC, hasC] at hrs
  have hcent : Cent p.2 := cent_of_round2_fix (hfix p hp)
  simp only
  rw [hps, hrs]
  by_cases hlt : p.2 < -(1/100)
  · have hgt : ¬ ((1/100 : ℚ) < p.2) := by linarith
    rw [if_pos (decide_eq_true hlt), if_neg (by simpa using hgt)]
    norm_num
  · by_cases hgt : (1/100 : ℚ) < p.2
    · rw [if_neg (by simpa using hlt), if_pos (decide_eq_true hgt)]
      norm_num
    · rw [if_neg (by simpa using hlt), if_neg (by simpa using hgt)]
      have h1 : -(1/100) ≤ p.2 := le_of_not_lt hlt
      have h2 : p.2 ≤ 1/100 := le_of_not_lt hgt
      rw [abs_le]
      constructor <;> simp <;> linarith

/-- Claim C6: for every balances mapping, `simplify_debts` emits at most
`debtorCount + creditorCount - 1` transactions, where the counts are of
members with rounded balance below `-0.01` resp. above `0.01` (natural
subtraction: with no debtors and no creditors the output is empty). -/
theorem simplify_debts_length_bound (b : List (Int × ℚ)) :
    (simplify_debts b).length ≤ (debtorsOf b).length + (creditorsOf b).length - 1 := by
  have hpermD := List.perm_insertionSort (fun a b : Int × ℚ => a.2 ≤ b.2) (debtorsOf b)
  have hpermC := List.perm_insertionSort (fun a b : Int × ℚ => b.2 ≤ a.2) (creditorsOf b)
  have h := settleLoop_length
    ((List.insertionSort (fun a b : Int × ℚ => a.2 ≤ b.2) (debtorsOf b)).length
      + (List.insertionSort (fun a b : Int × ℚ => b.2 ≤ a.2) (creditorsOf b)).length)
    (List.insertionSort (fun a b : Int × ℚ => a.2 ≤ b.2) (debtorsOf b))
    (List.insertionSort (fun a b : Int × ℚ => b.2 ≤ a.2) (creditorsOf b))
    (by
      intro p hp
      have := mem_debtorsOf (hpermD.mem_iff.mp hp)
      linarith)
  have hld : (List.insertionSort (fun a b : Int × ℚ => a.2 ≤ b.2) (debtorsOf b)).length
      = (debtorsOf b).length := hpermD.length_eq
  have hlc : (List.insertionSort (fun a b : Int × ℚ => b.2 ≤ a.2) (creditorsOf b)).length
      = (creditorsOf b).length := hpermC.length_eq
  have hts : simplify_debts b
      = settleLoop
          ((List.insertionSort (fun a b : Int × ℚ => a.2 ≤ b.2) (debtorsOf b)).length
            + (List.insertionSort (fun a b : Int × ℚ => b.2 ≤ a.2) (creditorsOf b)).length)
          (List.insertionSort (fun a b : Int × ℚ => a.2 ≤ b.2) (debtorsOf b))
          (List.insertionSort (fun a b : Int × ℚ => b.2 ≤ a.2) (creditorsOf b)) := rfl
  rw [hts, ← hld, ← hlc]
  exact h

lemma dictInit_aux (ks : List Int) (acc : List (Int × ℚ)) (hnd : ks.Nodup)
    (hdisj : ∀ k ∈ ks, ∀ p ∈ acc, p.1 ≠ k) :
    ks.foldl (fun b k => if b.any (fun p => p.1 == k) then b else b ++ [(k, 0)]) acc
      = acc ++ ks.map (fun k => (k, 0)) := by
  induction ks generalizing acc with
  | nil => simp
  | cons k t ih =>
    have hany : acc.any (fun p => p.1 == k) = false := by
      rw [List.any_eq_false]
      intro p hp
      simpa using hdisj k (by simp) p hp
    simp only [List.foldl_cons, hany, Bool.false_eq_true, if_false]
    rw [ih (acc ++ [(k, 0)]) (List.nodup_cons.mp hnd).2]
    · simp
    · intro j hj p hp
      rcases List.mem_append.mp hp with h | h
      · exact hdisj j (by simp [hj]) p h
      · simp only [List.mem_singleton] at h
        subst h
        intro he
        have he2 : k = j := he
        apply (List.nodup_cons.mp hnd).1
        rw [he2]
        exact hj

lemma dictInit_eq {ks : List Int} (h : ks.Nodup) :
    dictInit ks = ks.map (fun k => (k, 0)) := by
  simpa using dictInit_aux ks [] h (by simp)

lemma bupdate_map (ms : List Int) (f : Int → ℚ) (k : Int) (δ : ℚ) :
    bupdate (ms.map (fun m => (m, f m))) k δ
      = ms.map (fun m => (m, f m + if m = k then δ else 0)) := by
  rw [bupdate_value, List.map_map]
  apply List.map_congr_left
  intro m _
  simp [Function.comp]

lemma sum_map_add {α : Type} (l : List α) (g h : α → ℚ) :
    (l.map (fun a => g a + h a)).sum = (l.map g).sum + (l.map h).sum := by
  induction l with
  | nil => simp
  | cons a t ih =>
    simp only [List.map_cons, List.sum_cons, ih]
    ring

lemma sum_map_sub {α : Type} (l : List α) (g h : α → ℚ) :
    (l.map (fun a => g a - h a)).sum = (l.map g).sum - (l.map h).sum := by
  induction l with
  | nil => simp
  | cons a t ih =>
    simp only [List.map_cons, List.sum_cons, ih]
    ring

lemma foldl_pay (L : List Expense) (ms : List Int) (f : Int → ℚ) :
    L.foldl (fun b e => bupdate b e.payer_member_id e.amount)
        (ms.map (fun m => (m, f m)))
      = ms.map (fun m =>
          (m, f m + (L.map (fun e => if e.payer_member_id = m then e.amount else 0)).sum)) := by
  induction L generalizing f with
  | nil => simp
  | cons e t ih =>
    simp only [List.foldl_cons]
    rw [bupdate_map, ih (fun m => f m + if m = e.payer_member_id then e.amount else 0)]
    apply List.map_congr_left
    intro m _
    simp only [List.map_cons, List.sum_cons, Prod.mk.injEq, true_and]
    by_cases h : e.payer_member_id = m
    · rw [if_pos h, if_pos h.symm]
      ring
    · rw [if_neg h, if_neg (fun he => h he.symm)]
      ring

lemma foldl_split (S : List ExpenseSplit) (ms : List Int) (f : Int → ℚ) :
    S.foldl (fun b s => bupdate b s.member_id (-s.amount_owed))
        (ms.map (fun m => (m, f m)))
      = ms.map (fun m =>
          (m, f m - (S.map (fun s => if s.member_id = m then s.amount_owed else 0)).sum)) := by
  induction S generalizing f with
  | nil => simp
  | cons s t ih =>
    simp only [List.foldl_cons]
    rw [bupdate_map, ih (fun m => f m + if m = s.member_id then -s.amount_owed else 0)]
    apply List.map_congr_left
    intro m _
    simp only [List.map_cons, List.sum_cons, Prod.mk.injEq, true_and]
    by_cases h : s.member_id = m
    · rw [if_pos h, if_pos h.symm]
      ring
    · rw [if_neg h, if_neg (fun he => h he.symm)]
      ring

lemma foldl_split_nested (L : List Expense) (ms : List Int) (f : Int → ℚ) :
    L.foldl (fun b e =>
        e.splits.foldl (fun b s => bupdate b s.member_id (-s.amount_owed)) b)
        (ms.map (fun m => (m, f m)))
      = ms.map (fun m =>
          (m, f m - (L.map (fun e =>
            (e.splits.map (fun s => if s.member_id = m then s.amount_owed else 0)).sum)).sum)) := by
  induction L generalizing f with
  | nil => simp
  | cons e t ih =>
    simp only [List.foldl_cons]
    rw [foldl_split, ih (fun m => f m -
      (e.splits.map (fun s => if s.member_id = m then s.amount_owed else 0)).sum)]
    apply List.map_congr_left
    intro m _
    simp only [List.map_cons, List.sum_cons, Prod.mk.injEq, true_and]
    ring

lemma foldl_settle (L : List Settlement) (ms : List Int) (f : Int → ℚ) :
    L.foldl (fun b s => bupdate (bupdate b s.payer_member_id s.amount)
        s.receiver_member_id (-s.amount))
        (ms.map (fun m => (m, f m)))
      = ms.map (fun m =>
          (m, f m + (L.map (fun s =>
            (if s.payer_member_id = m then s.amount else 0)
              - (if s.receiver_member_id = m then s.amount else 0))).sum)) := by
  induction L generalizing f with
  | nil => simp
  | cons s t ih =>
    simp only [List.foldl_cons]
    rw [bupdate_map, bupdate_map,
      ih (fun m => (f m + if m = s.payer_member_id then s.amount else 0)
        + if m = s.receiver_member_id then -s.amount else 0)]
    apply List.map_congr_left
    intro m _
    simp only [List.map_cons, List.sum_cons, Prod.mk.injEq, true_and]
    by_cases h1 : s.payer_member_id = m <;> by_cases h2 : s.receiver_member_id = m
    · rw [if_pos h1.symm, if_pos h2.symm, if_pos h1, if_pos h2]
      ring
    · rw [if_pos h1.symm, if_neg (fun he => h2 he.symm), if_pos h1,
        if_neg h2]
      ring
    · rw [if_neg (fun he => h1 he.symm), if_pos h2.symm, if_neg h1, if_pos h2]
      ring
    · rw [if_neg (fun he => h1 he.symm), if_neg (fun he => h2 he.symm),
        if_neg h1, if_neg h2]
      ring

/-- The Balance Aggregator contract of spec §4.2, stated pointwise: a current
member's net balance is the sum of expense amounts they paid, minus the split
amounts they owe, plus settlement amounts they paid, minus settlement amounts
they received — all restricted to the group's history. -/
def specBalance (db : DB) (gid : Int) (m : Int) : ℚ :=
  ((db.expenses.filter (fun e => e.group_id == gid)).map
      (fun e => if e.payer_member_id = m then e.amount else 0)).sum
    - ((db.expenses.filter (fun e => e.group_id == gid)).map
        (fun e => (e.splits.map
          (fun s => if s.member_id = m then s.amount_owed else 0)).sum)).sum
    + ((db.settlements.filter (fun s => s.group_id == gid)).map
        (fun s => (if s.payer_member_id = m then s.amount else 0)
          - (if s.receiver_member_id = m then s.amount else 0))).sum

lemma calculate_member_balances_eq {db : DB} {gid : Int} {group : Group}
    (hg : db.groups.find? (fun g => g.id == gid) = some group)
    (hnd : group.members.Nodup) :
    calculate_member_balances db gid
      = group.members.map (fun m => (m, specBalance db gid m)) := by
  unfold calculate_member_balances
  rw [hg]
  simp only
  rw [dictInit_eq hnd]
  have h0 : group.members.map (fun k => (k, (0:ℚ)))
      = group.members.map (fun m => (m, (fun _ : Int => (0:ℚ)) m)) := rfl
  rw [h0, foldl_pay, foldl_split_nested, foldl_settle]
  apply List.map_congr_left
  intro m _
  simp only [Prod.mk.injEq, true_and]
  unfold specBalance
  ring

lemma sum_map_comm {α : Type} (ms : List Int) (L : List α) (F : Int → α → ℚ) :
    (ms.map (fun m => (L.map (fun a => F m a)).sum)).sum
      = (L.map (fun a => (ms.map (fun m => F m a)).sum)).sum := by
  induction L with
  | nil => simp
  | cons a t ih =>
    have h1 : (ms.map (fun m => (List.map (fun a => F m a) (a :: t)).sum)).sum
        = (ms.map (fun m => F m a + (t.map (fun a => F m a)).sum)).sum := by
      simp
    rw [h1, sum_map_add, ih]
    simp

lemma sum_if_mem {ms : List Int} (hnd : ms.Nodup) {k : Int} (hk : k ∈ ms) (x : ℚ) :
    (ms.map (fun m => if k = m then x else 0)).sum = x := by
  induction ms with
  | nil => simp at hk
  | cons m t ih =>
    have hnd2 := List.nodup_cons.mp hnd
    rcases List.mem_cons.mp hk with rfl | h
    · have hz : (t.map (fun m => if k = m then x else 0)).sum = 0 := by
        have : t.map (fun m => if k = m then x else 0) = t.map (fun _ => (0:ℚ)) :=
          List.map_congr_left (fun m hm => if_neg (fun he => hnd2.1 (by rw [he]; exact hm)))
        rw [this]
        simp
      rw [List.map_cons, List.sum_cons, if_pos rfl, hz, add_zero]
    · have hne : k ≠ m := fun he => hnd2.1 (by rw [← he]; exact h)
      rw [List.map_cons, List.sum_cons, if_neg hne, ih hnd2.2 h, zero_add]

/-- Claim C2: for every existing group (with distinct member ids, a database
invariant), `calculate_member_balances` returns exactly the group's current
member ids as keys, each mapped to the §4.2 three-pass net balance; history
entries whose member ids are not current members contribute nothing. -/
theorem calculate_member_balances_spec (db : DB) (gid : Int) (group : Group)
    (hg : db.groups.find? (fun g => g.id == gid) = some group)
    (hnd : group.members.Nodup) :
    calculate_member_balances db gid
      = group.members.map (fun m => (m, specBalance db gid m)) :=
  calculate_member_balances_eq hg hnd

/-- Claim C5: for every existing group whose expense splits each sum to the
expense amount and whose expense payers, split members and settlement parties
are all current members, the balances returned by `calculate_member_balances`
sum to zero within 0.01 (they sum to exactly zero). -/
theorem balances_zero_sum (db : DB) (gid : Int) (group : Group)
    (hg : db.groups.find? (fun g => g.id == gid) = some group)
    (hnd : group.members.Nodup)
    (hexp : ∀ e ∈ db.expenses.filter (fun e => e.group_id == gid),
      (e.splits.map (fun s => s.amount_owed)).sum = e.amount
        ∧ e.payer_member_id ∈ group.members
        ∧ ∀ s ∈ e.splits, s.member_id ∈ group.members)
    (hset : ∀ s ∈ db.settlements.filter (fun s => s.group_id == gid),
      s.payer_member_id ∈ group.members ∧ s.receiver_member_id ∈ group.members) :
    |((calculate_member_balances db gid).map Prod.snd).sum| ≤ 1/100 := by
  rw [calculate_member_balances_eq hg hnd, List.map_map]
  have hco : (Prod.snd ∘ fun m => (m, specBalance db gid m))
      = fun m => specBalance db gid m := rfl
  rw [hco]
  have hz : (group.members.map (fun m => specBalance db gid m)).sum = 0 := by
    unfold specBalance
    rw [show (fun m => ((db.expenses.filter (fun e => e.group_id == gid)).map
        (fun e => if e.payer_member_id = m then e.amount else 0)).sum
      - ((db.expenses.filter (fun e => e.group_id == gid)).map
          (fun e => (e.splits.map
            (fun s => if s.member_id = m then s.amount_owed else 0)).sum)).sum
      + ((db.settlements.filter (fun s => s.group_id == gid)).map
          (fun s => (if s.payer_member_id = m then s.amount else 0)
            - (if s.receiver_member_id = m then s.amount else 0))).sum)
      = (fun m => (((db.expenses.filter (fun e => e.group_id == gid)).map
        (fun e => if e.payer_member_id = m then e.amount else 0)).sum
      - ((db.expenses.filter (fun e => e.group_id == gid)).map
          (fun e => (e.splits.map
            (fun s => if s.member_id = m then s.amount_owed else 0)).sum)).sum)
      + ((db.settlements.filter (fun s => s.group_id == gid)).map
          (fun s => (if s.payer_member_id = m then s.amount else 0)
            - (if s.receiver_member_id = m then s.amount else 0))).sum) from rfl]
    rw [sum_map_add, sum_map_sub]
    have hA : (group.members.map (fun m =>
        ((db.expenses.filter (fun e => e.group_id == gid)).map
          (fun e => if e.payer_member_id = m then e.amount else 0)).sum)).sum
        = ((db.expenses.filter (fun e => e.group_id == gid)).map
            (fun e => e.amount)).sum := by
      rw [sum_map_comm]
      congr 1
      apply List.map_congr_left
      intro e he
      exact sum_if_mem hnd (hexp e he).2.1 e.amount
    have hB : (group.members.map (fun m =>
        ((db.expenses.filter (fun e => e.group_id == gid)).map
          (fun e => (e.splits.map
            (fun s => if s.member_id = m then s.amount_owed else 0)).sum)).sum)).sum
        = ((db.expenses.filter (fun e => e.group_id == gid)).map
            (fun e => e.amount)).sum := by
      rw [sum_map_comm]
      congr 1
      apply List.map_congr_left
      intro e he
      have hswap : (group.members.map (fun m => (e.splits.map
          (fun s => if s.member_id = m then s.amount_owed else 0)).sum)).sum
          = (e.splits.map (fun s => (group.members.map
              (fun m => if s.member_id = m then s.amount_owed else 0)).sum)).sum :=
        sum_map_comm group.members e.splits
          (fun m s => if s.member_id = m then s.amount_owed else 0)
      rw [hswap]
      have : e.splits.map (fun s => (group.members.map
          (fun m => if s.member_id = m then s.amount_owed else 0)).sum)
          = e.splits.map (fun s => s.amount_owed) :=
        List.map_congr_left (fun s hs =>
          sum_if_mem hnd ((hexp e he).2.2 s hs) s.amount_owed)
      rw [this, (hexp e he).1]
    have hC : (group.members.map (fun m =>
        ((db.settlements.filter (fun s => s.group_id == gid)).map
          (fun s => (if s.payer_member_id = m then s.amount else 0)
            - (if s.receiver_member_id = m then s.amount else 0))).sum)).sum = 0 := by
      rw [sum_map_comm]
      have : (db.settlements.filter (fun s => s.group_id == gid)).map
          (fun s => (group.members.map
            (fun m => (if s.payer_member_id = m then s.amount else 0)
              - (if s.receiver_member_id = m then s.amount else 0))).sum)
          = (db.settlements.filter (fun s => s.group_id == gid)).map
              (fun _ => (0:ℚ)) := by
        apply List.map_congr_left
        intro st hst
        rw [sum_map_sub, sum_if_mem hnd (hset st hst).1 st.amount,
          sum_if_mem hnd (hset st hst).2 st.amount]
        ring
      rw [this]
      simp
    rw [hA, hB, hC]
    ring
  rw [hz]
  norm_num

/-- Claim C8: for a group id that matches no existing group,
`calculate_member_balances` returns the empty mapping; the function is total,
so no error is raised. -/
theorem balances_missing_group (db : DB) (gid : Int)
    (h : ∀ g ∈ db.groups, g.id ≠ gid) :
    calculate_member_balances db gid = [] := by
  unfold calculate_member_balances
  have hfind : db.groups.find? (fun g => g.id == gid) = none := by
    rw [List.find?_eq_none]
    intro g hg
    simpa using h g hg
  rw [hfind]

lemma computeSplits_equal_selected (eid : Int) (amount : ℚ) (members : List Int)
    (inputs : List (Int × ℚ)) (hne : inputs ≠ []) :
    computeSplits eid amount "Equal" members inputs
      = (if (members.filter (fun m => !(iget inputs m 0 == 0))).length > 0 then
          (members.filter (fun m => !(iget inputs m 0 == 0))).map
            (fun m => ⟨eid, m,
              amount / (members.filter (fun m => !(iget inputs m 0 == 0))).length⟩)
        else []) := by
  simp only [computeSplits]
  rw [if_pos (show (("Equal" : String) == "Equal") = true from rfl)]
  rw [if_neg (show ¬ (inputs.isEmpty = true) by simpa [List.isEmpty_iff] using hne)]

/-- Claim C3 (amended): for every Equal-policy allocation in which the member
inputs are non-empty and select no current member, the operation succeeds
without raising any error, creating the expense with zero split records (the
source has no `InvalidSplitError`; the `num_selected > 0` guard silently
skips split creation). -/
theorem equal_zero_selected_no_error (db : DB) (gid payer : Int) (amount : ℚ)
    (inputs : List (Int × ℚ)) (eid : Int) (group : Group)
    (hg : db.groups.find? (fun g => g.id == gid) = some group)
    (hne : inputs ≠ [])
    (hsel : ∀ m ∈ group.members, iget inputs m 0 = 0) :
    (create_expense db gid payer amount "Equal" inputs eid).map
      (fun r => r.2.splits) = some [] := by
  have hfil : group.members.filter (fun m => !(iget inputs m 0 == 0)) = [] := by
    rw [List.filter_eq_nil_iff]
    intro m hm
    simp [hsel m hm]
  have hcs : computeSplits eid amount "Equal" group.members inputs = [] := by
    rw [computeSplits_equal_selected _ _ _ _ hne, hfil]
    simp
  unfold create_expense
  rw [hg]
  show some (computeSplits eid amount "Equal" group.members inputs) = some []
  rw [hcs]

/-- Claim C4: for every Equal-policy allocation with a non-empty input map
selecting at least one current member, every selected member receives a split
of `amount / selectedCount` and no unselected member has a split record. -/
theorem equal_split_allocation (db : DB) (gid payer : Int) (amount : ℚ)
    (inputs : List (Int × ℚ)) (eid : Int) (group : Group)
    (hg : db.groups.find? (fun g => g.id == gid) = some group)
    (hne : inputs ≠ [])
    (hsel : group.members.filter (fun m => !(iget inputs m 0 == 0)) ≠ []) :
    ((create_expense db gid payer amount "Equal" inputs eid).map (fun r => r.2.splits)
      = some ((group.members.filter (fun m => !(iget inputs m 0 == 0))).map
          (fun m => ⟨eid, m,
            amount / (group.members.filter (fun m => !(iget inputs m 0 == 0))).length⟩)))
    ∧ (∀ r, create_expense db gid payer amount "Equal" inputs eid = some r →
        ∀ m ∈ group.members, iget inputs m 0 = 0 →
          ∀ s ∈ r.2.splits, s.member_id ≠ m) := by
  have hcs : computeSplits eid amount "Equal" group.members inputs
      = (group.members.filter (fun m => !(iget inputs m 0 == 0))).map
          (fun m => ⟨eid, m,
            amount / (group.members.filter (fun m => !(iget inputs m 0 == 0))).length⟩) := by
    rw [computeSplits_equal_selected _ _ _ _ hne]
    rw [if_pos (by
      cases hfe : group.members.filter (fun m => !(iget inputs m 0 == 0)) with
      | nil => exact absurd hfe hsel
      | cons a t => simp)]
  have hmain : (create_expense db gid payer amount "Equal" inputs eid).map
      (fun r => r.2.splits)
      = some ((group.members.filter (fun m => !(iget inputs m 0 == 0))).map
          (fun m => ⟨eid, m,
            amount / (group.members.filter (fun m => !(iget inputs m 0 == 0))).length⟩)) := by
    unfold create_expense
    rw [hg]
    show some (computeSplits eid amount "Equal" group.members inputs) = _
    rw [hcs]
  refine ⟨hmain, ?_⟩
  intro r hr m hm hmz s hs
  rw [hr] at hmain
  simp only [Option.map_some', Option.some.injEq] at hmain
  rw [hmain] at hs
  obtain ⟨m2, hm2, rfl⟩ := List.mem_map.mp hs
  have hmem := (List.mem_filter.mp hm2).2
  intro he
  have he2 : m2 = m := he
  rw [he2] at hmem
  simp [hmz] at hmem

/-- Claim C9: for every Shares-policy allocation whose share inputs sum to
zero, the guarded branch produces no splits and the operation succeeds (the
division by total shares is never reached). -/
theorem shares_zero_total_no_splits (db : DB) (gid payer : Int) (amount : ℚ)
    (inputs : List (Int × ℚ)) (eid : Int) (group : Group)
    (hg : db.groups.find? (fun g => g.id == gid) = some group)
    (hzero : (inputs.map Prod.snd).sum = 0) :
    (create_expense db gid payer amount "Shares" inputs eid).map
      (fun r => r.2.splits) = some [] := by
  have hcs : computeSplits eid amount "Shares" group.members inputs = [] := by
    simp only [computeSplits]
    rw [if_neg (by decide), if_neg (by decide), if_neg (by decide),
      if_pos (show (("Shares" : String) == "Shares") = true from rfl)]
    rw [hzero]
    norm_num
  unfold create_expense
  rw [hg]
  show some (computeSplits eid amount "Shares" group.members inputs) = some []
  rw [hcs]

lemma computeSplits_equal_empty (eid : Int) (amount : ℚ) (members : List Int) :
    computeSplits eid amount "Equal" members []
      = members.map (fun m => ⟨eid, m, amount / members.length⟩) := by
  simp only [computeSplits]
  rw [if_pos (show (("Equal" : String) == "Equal") = true from rfl)]
  rw [if_pos (show ([] : List (Int × ℚ)).isEmpty = true from rfl)]
  cases members with
  | nil => simp
  | cons m t => rw [if_pos (by simp)]

/-- Claim C10: for every Equal-policy allocation whose member-input map is
empty, all current members are selected (backward-compatibility branch), each
receiving `amount / memberCount` — both in `create_expense` and in
`update_expense`. -/
theorem equal_empty_inputs_all_members (db : DB) (gid payer : Int) (amount : ℚ)
    (eid : Int) (group : Group)
    (hg : db.groups.find? (fun g => g.id == gid) = some group) :
    ((create_expense db gid payer amount "Equal" [] eid).map (fun r => r.2.splits)
      = some (group.members.map (fun m => ⟨eid, m, amount / group.members.length⟩)))
    ∧ ∀ (eid2 : Int) (expense : Expense),
        db.expenses.find? (fun e => e.id == eid2) = some expense →
        expense.group_id = gid →
        (update_expense db eid2 amount payer "Equal" []).map (fun r => r.2.splits)
          = some (group.members.map (fun m => ⟨eid2, m, amount / group.members.length⟩)) := by
  constructor
  · unfold create_expense
    rw [hg]
    show some (computeSplits eid amount "Equal" group.members []) = _
    rw [computeSplits_equal_empty]
  · intro eid2 expense hfind hgid
    have hfg : db.groups.find? (fun g => g.id == expense.group_id) = some group := by
      rw [hgid]
      exact hg
    unfold update_expense
    simp only [hfind, hfg]
    show some (computeSplits eid2 amount "Equal" group.members []) = _
    rw [computeSplits_equal_empty]

/-- Claim C7: for every existing group, a missing or non-positive budget
yields zero utilization and no alerts; a positive budget yields utilization
`totalSpent / budget * 100` and at most one alert chosen by descending
thresholds: at 100% or more an exceeded-by-overage alert, else at 80% or more
a nearing-limit alert, else at 50% or more a half-used alert, else none. -/
theorem get_budget_status_spec (db : DB) (gid : Int) (group : Group)
    (hg : db.groups.find? (fun g => g.id == gid) = some group) :
    ((group.budget_amount = none ∨ (∃ v, group.budget_amount = some v ∧ v ≤ 0)) →
      (get_budget_status db gid).percentage_used = 0
        ∧ (get_budget_status db gid).alerts = [])
    ∧ (∀ v, group.budget_amount = some v → 0 < v →
        (get_budget_status db gid).percentage_used
            = calculate_total_spent db gid / v * 100
          ∧ (get_budget_status db gid).alerts.length ≤ 1
          ∧ (100 ≤ (get_budget_status db gid).percentage_used →
              (get_budget_status db gid).alerts
                = [BudgetAlert.exceeded ((get_budget_status db gid).percentage_used - 100)])
          ∧ (80 ≤ (get_budget_status db gid).percentage_used
              ∧ (get_budget_status db gid).percentage_used < 100 →
              (get_budget_status db gid).alerts = [BudgetAlert.nearingLimit])
          ∧ (50 ≤ (get_budget_status db gid).percentage_used
              ∧ (get_budget_status db gid).percentage_used < 80 →
              (get_budget_status db gid).alerts = [BudgetAlert.halfUsed])
          ∧ ((get_budget_status db gid).percentage_used < 50 →
              (get_budget_status db gid).alerts = [])) := by
  unfold get_budget_status
  simp only [hg]
  constructor
  · rintro (hnone | ⟨v, hv, hvle⟩)
    · simp only [hnone]
      exact ⟨by trivial, by trivial⟩
    · simp only [hv]
      rw [if_neg (by linarith)]
      exact ⟨by trivial, by trivial⟩
  · intro v hv hvpos
    simp only [hv]
    rw [if_pos hvpos]
    dsimp only
    refine ⟨rfl, ?_, ?_, ?_, ?_, ?_⟩
    · by_cases h1 : calculate_total_spent db gid / v * 100 ≥ 100
      · rw [if_pos h1]
        simp
      · rw [if_neg h1]
        by_cases h2 : calculate_total_spent db gid / v * 100 ≥ 80
        · rw [if_pos h2]
          simp
        · rw [if_neg h2]
          by_cases h3 : calculate_total_spent db gid / v * 100 ≥ 50
          · rw [if_pos h3]
            simp
          · rw [if_neg h3]
            simp
    · intro h1
      rw [if_pos h1]
    · rintro ⟨h2, h1⟩
      rw [if_neg (by intro hc; linarith), if_pos h2]
    · rintro ⟨h3, h2⟩
      rw [if_neg (by intro hc; linarith), if_neg (by intro hc; linarith), if_pos h3]
    · intro h3
      rw [if_neg (by intro hc; linarith), if_neg (by intro hc; linarith),
        if_neg (by intro hc; linarith)]

/-- A sample store with one two-member group and no history. -/
def dbA : DB := ⟨[⟨1, [1, 2], none⟩], [], []⟩

/-- A sample store with a 1000-budget group and a single 850 expense. -/
def dbB : DB := ⟨[⟨1, [1, 2], some 1000⟩], [⟨10, 1, 1, 850, []⟩], []⟩

/-- A sample store with one 200 expense split equally and one 50 settlement. -/
def dbC : DB :=
  ⟨[⟨1, [1, 2], none⟩], [⟨10, 1, 1, 200, [⟨10, 1, 100⟩, ⟨10, 2, 100⟩]⟩], [⟨1, 2, 1, 50⟩]⟩

theorem simplify_debts_settlement_correct_witness :
    (([((1 : Int), (3/2 : ℚ)), (2, -(3/2))]).map Prod.snd).sum = 0
    ∧ ∀ q ∈ applyTransactions [((1 : Int), (3/2 : ℚ)), (2, -(3/2))]
        (simplify_debts [((1 : Int), (3/2 : ℚ)), (2, -(3/2))]), |q.2| ≤ 1/100 := by
  constructor
  · norm_num
  · apply simplify_debts_settlement_correct
    · decide
    · intro p hp
      simp only [List.mem_cons, List.mem_singleton] at hp
      rcases hp with rfl | rfl | h
      · norm_num [round2, roundHalfEven]
      · norm_num [round2, roundHalfEven]
      · simp at h
    · intro p hp
      simp only [List.mem_cons, List.mem_singleton] at hp
      rcases hp with rfl | rfl | h
      · norm_num
      · norm_num
      · simp at h
    · norm_num

theorem simplify_debts_settlement_counterexample :
    (([((1 : Int), (7/500 : ℚ)), (2, -(7/500))]).map Prod.snd).sum = 0
    ∧ simplify_debts [((1 : Int), (7/500 : ℚ)), (2, -(7/500))] = []
    ∧ ¬ (∀ q ∈ applyTransactions [((1 : Int), (7/500 : ℚ)), (2, -(7/500))]
          (simplify_debts [((1 : Int), (7/500 : ℚ)), (2, -(7/500))]), |q.2| ≤ 1/100) := by
  have hsd : simplify_debts [((1 : Int), (7/500 : ℚ)), (2, -(7/500))] = [] := by
    norm_num [simplify_debts, debtorsOf, creditorsOf, settleLoop, round2, roundHalfEven,
      List.insertionSort, List.orderedInsert]
  refine ⟨by norm_num, hsd, ?_⟩
  intro hall
  rw [hsd] at hall
  have h1 := hall (1, 7/500) (by
    show (1, (7/500 : ℚ)) ∈ applyTransactions _ []
    simp [applyTransactions])
  have h2 : (7/500 : ℚ) ≤ 1/100 := le_trans (le_abs_self _) h1
  norm_num at h2

theorem calculate_member_balances_spec_witness :
    calculate_member_balances dbC 1
      = ([1, 2] : List Int).map (fun m => (m, specBalance dbC 1 m)) :=
  calculate_member_balances_spec dbC 1 ⟨1, [1, 2], none⟩ (by decide) (by decide)

theorem equal_zero_selected_counterexample :
    (create_expense dbA 1 1 10 "Equal" [(1, 0), (2, 0)] 100).isSome = true
    ∧ (create_expense dbA 1 1 10 "Equal" [(1, 0), (2, 0)] 100).map
        (fun r => r.2.splits) = some [] := by
  constructor
  · decide
  · decide

theorem equal_zero_selected_no_error_witness :
    (create_expense dbA 1 1 10 "Equal" [(1, 0), (2, 0)] 100).map
      (fun r => r.2.splits) = some [] := by
  apply equal_zero_selected_no_error dbA 1 1 10 [(1, 0), (2, 0)] 100 ⟨1, [1, 2], none⟩
  · decide
  · decide
  · decide

theorem equal_split_allocation_witness :
    ((create_expense dbA 1 1 10 "Equal" [(1, 1), (2, 0)] 100).map (fun r => r.2.splits)
      = some ((([1, 2] : List Int).filter
          (fun m => !(iget [(1, 1), (2, 0)] m 0 == 0))).map
          (fun m => ⟨100, m, 10 / (([1, 2] : List Int).filter
            (fun m => !(iget [(1, 1), (2, 0)] m 0 == 0))).length⟩)))
    ∧ (∀ r, create_expense dbA 1 1 10 "Equal" [(1, 1), (2, 0)] 100 = some r →
        ∀ m ∈ ([1, 2] : List Int), iget [(1, 1), (2, 0)] m 0 = 0 →
          ∀ s ∈ r.2.splits, s.member_id ≠ m) :=
  equal_split_allocation dbA 1 1 10 [(1, 1), (2, 0)] 100 ⟨1, [1, 2], none⟩
    (by decide) (by decide) (by decide)

theorem balances_zero_sum_witness :
    |((calculate_member_balances dbC 1).map Prod.snd).sum| ≤ 1/100 := by
  apply balances_zero_sum dbC 1 ⟨1, [1, 2], none⟩
  · decide
  · decide
  · intro e he
    have hfe : dbC.expenses.filter (fun e => e.group_id == 1)
        = [⟨10, 1, 1, 200, [⟨10, 1, 100⟩, ⟨10, 2, 100⟩]⟩] := rfl
    rw [hfe] at he
    simp only [List.mem_singleton] at he
    subst he
    refine ⟨by norm_num, by decide, ?_⟩
    intro s hs
    simp only [List.mem_cons, List.mem_singleton] at hs
    rcases hs with rfl | rfl | h
    · decide
    · decide
    · simp at h
  · intro st hst
    have hfs : dbC.settlements.filter (fun s => s.group_id == 1) = [⟨1, 2, 1, 50⟩] := rfl
    rw [hfs] at hst
    simp only [List.mem_singleton] at hst
    subst hst
    exact ⟨by decide, by decide⟩

theorem shares_zero_total_no_splits_witness :
    (create_expense dbA 1 1 10 "Shares" [(1, 2), (2, -2)] 100).map
      (fun r => r.2.splits) = some [] := by
  apply shares_zero_total_no_splits dbA 1 1 10 [(1, 2), (2, -2)] 100 ⟨1, [1, 2], none⟩
  · decide
  · norm_num

theorem equal_empty_inputs_all_members_witness :
    ((create_expense dbC 1 1 10 "Equal" [] 100).map (fun r => r.2.splits)
      = some (([1, 2] : List Int).map (fun m => ⟨100, m, 10 / ([1, 2] : List Int).length⟩)))
    ∧ ∀ (eid2 : Int) (expense : Expense),
        dbC.expenses.find? (fun e => e.id == eid2) = some expense →
        expense.group_id = 1 →
        (update_expense dbC eid2 10 1 "Equal" []).map (fun r => r.2.splits)
          = some (([1, 2] : List Int).map (fun m => ⟨eid2, m, 10 / ([1, 2] : List Int).length⟩)) :=
  equal_empty_inputs_all_members dbC 1 1 10 100 ⟨1, [1, 2], none⟩ (by decide)

theorem get_budget_status_spec_witness :
    (get_budget_status dbB 1).percentage_used = 85
    ∧ (get_budget_status dbB 1).alerts = [BudgetAlert.nearingLimit] := by
  have h := (get_budget_status_spec dbB 1 ⟨1, [1, 2], some 1000⟩ (by decide)).2
    1000 rfl (by norm_num)
  have htot : calculate_total_spent dbB 1 = 850 := by
    norm_num [calculate_total_spent, dbB]
  have h1 : (get_budget_status dbB 1).percentage_used = 85 := by
    rw [h.1, htot]
    norm_num
  refine ⟨h1, ?_⟩
  apply h.2.2.2.1
  rw [h1]
  norm_num

theorem balances_missing_group_witness :
    calculate_member_balances dbA 2 = [] :=
  balances_missing_group dbA 2 (by decide)

end SJ
